import Mathlib

/-!
Shallow embedding of the multicache caching library: the query-condition
evaluator (`CompositeCondition.Match`), the primary cache store
(`CacheManager`), and the related cache store with a foreign-key index
(`RelatedCacheManager`).

Modelling choices:
* Go `uint` primary/foreign keys become `Nat`.
* `time.Time` / `time.Duration` become `Int`; the zero `time.Time{}`
  (for which `IsZero()` is true) becomes `none : Option Int`, and
  `time.Since(t)` at current instant `now` becomes `now - t`.
* A Go `map[uint]T` becomes an association list with replace-on-insert
  (`mapUpsert`), and `map[uint][]uint` an association list of buckets
  with append-to-bucket (`fkAppend`).  Go map iteration order is
  unspecified; the association list fixes one concrete order, and every
  order-sensitive statement proved below concerns only slices (`[]uint`
  buckets), whose order Go does define.
* The loader capability `Load() ([]T, error)` is passed to `Refresh` as
  an already-computed `Except E (List T)`; `Refresh` returns the new
  store state together with the propagated error, mirroring the Go
  methods that mutate the receiver in place.
* Errors built with `fmt.Errorf` become the inductive `CacheError`.
-/

set_option autoImplicit false

namespace Multicache

/-- Go `Identifiable` from `cache/interfaces.go`: an entity with a primary key. -/
class Identifiable (T : Type) where
  GetID : T → Nat

/-- Go `ForeignKeyable` from `cache/interfaces.go`: an entity that also has a
foreign key (named `GetUserID` in the source). -/
class ForeignKeyable (T : Type) extends Identifiable T where
  GetUserID : T → Nat

export Identifiable (GetID)
export ForeignKeyable (GetUserID)

/-- Go `QueryCondition` interface: a predicate `Match` over one entity. -/
structure QueryCondition (T : Type) where
  Match : T → Bool

/-- Go `CompositeCondition` combines multiple conditions with AND/OR logic. -/
structure CompositeCondition (T : Type) where
  Conditions : List (QueryCondition T)
  Operation : String

/-- The `"and"` loop of `CompositeCondition.Match`: return `false` at the
first non-matching sub-condition, `true` if the loop completes. -/
def matchAll {T : Type} (item : T) : List (QueryCondition T) → Bool
  | [] => true
  | cond :: rest => if !(cond.Match item) then false else matchAll item rest

/-- The `"or"` loop of `CompositeCondition.Match`: return `true` at the
first matching sub-condition, `false` if the loop completes. -/
def matchAny {T : Type} (item : T) : List (QueryCondition T) → Bool
  | [] => false
  | cond :: rest => if cond.Match item then true else matchAny item rest

/-- Go `CompositeCondition.Match` from `models/model-v2.go` lines 98–121. -/
def CompositeCondition.Match {T : Type} (c : CompositeCondition T) (item : T) : Bool :=
  if c.Conditions.length = 0 then true
  else
    match c.Operation with
    | "and" => matchAll item c.Conditions
    | "or" => matchAny item c.Conditions
    | _ => false

/-- A composite condition is itself a `QueryCondition` (interface value),
so composites may nest. -/
def CompositeCondition.toCondition {T : Type} (c : CompositeCondition T) : QueryCondition T :=
  ⟨c.Match⟩

/-- Primary keys (`uint` in Go). -/
abbrev Key := Nat

/-- Go map assignment `m[k] = v`: replace the binding if the key is
present, otherwise add it at the end. -/
def mapUpsert {T : Type} : List (Key × T) → Key → T → List (Key × T)
  | [], k, v => [(k, v)]
  | (k', v') :: rest, k, v =>
      if k' = k then (k, v) :: rest else (k', v') :: mapUpsert rest k v

/-- Go map read `v, ok := m[k]`. -/
def mapLookup {T : Type} : List (Key × T) → Key → Option T
  | [], _ => none
  | (k', v) :: rest, k => if k' = k then some v else mapLookup rest k

/-- Errors produced by `CacheManager.Get` (`fmt.Errorf("cache expired")`
and `fmt.Errorf("item with ID %d not found", id)`). -/
inductive CacheError where
  | cacheExpired : CacheError
  | itemNotFound : Key → CacheError
deriving Repr, DecidableEq

/-- Go `CacheManager` state from `cache/cache_manager.go` (the lock and the
loader reference are not part of the sequential state). -/
structure CacheManager (T : Type) where
  data : List (Key × T)
  ttl : Int
  lastFetch : Option Int

/-- Go `NewCacheManager`: empty data, TTL 0 (permanent), unset `lastFetch`. -/
def NewCacheManager (T : Type) : CacheManager T :=
  { data := [], ttl := 0, lastFetch := none }

/-- Go `WithTTL` sets the TTL, builder style. -/
def CacheManager.WithTTL {T : Type} (cm : CacheManager T) (ttl : Int) : CacheManager T :=
  { cm with ttl := ttl }

/-- Go `CacheManager.isExpired`:
`cm.ttl > 0 && !cm.lastFetch.IsZero() && time.Since(cm.lastFetch) > cm.ttl`. -/
def CacheManager.isExpired {T : Type} (cm : CacheManager T) (now : Int) : Bool :=
  decide (0 < cm.ttl) &&
    match cm.lastFetch with
    | none => false
    | some t0 => decide (cm.ttl < now - t0)

/-- Go `CacheManager.Get`: expired cache or absent id fails; otherwise the
entity is returned. -/
def CacheManager.Get {T : Type} (cm : CacheManager T) (now : Int) (id : Key) :
    Except CacheError T :=
  if cm.isExpired now then .error .cacheExpired
  else
    match mapLookup cm.data id with
    | none => .error (.itemNotFound id)
    | some item => .ok item

/-- Go `CacheManager.GetAll`: nil if expired, otherwise all map values. -/
def CacheManager.GetAll {T : Type} (cm : CacheManager T) (now : Int) : List T :=
  if cm.isExpired now then [] else cm.data.map Prod.snd

/-- The refresh loop `for _, item := range items { newData[item.GetID()] = item }`
starting from an empty map. -/
def buildData {T : Type} [Identifiable T] (items : List T) : List (Key × T) :=
  items.foldl (fun m item => mapUpsert m (GetID item) item) []

/-- Go `CacheManager.Refresh`: on loader error return it and leave the state
untouched; on success replace `data` and set `lastFetch` to the current
time. -/
def CacheManager.Refresh {T E : Type} [Identifiable T] (cm : CacheManager T)
    (loadResult : Except E (List T)) (now : Int) : CacheManager T × Option E :=
  match loadResult with
  | .error e => (cm, some e)
  | .ok items => ({ cm with data := buildData items, lastFetch := some now }, none)

/-- Go `CacheManager.Clear`: empty the data map; `ttl` and `lastFetch` keep
their values. -/
def CacheManager.Clear {T : Type} (cm : CacheManager T) : CacheManager T :=
  { cm with data := [] }

/-- Go `CacheManager.Query`: nil if expired, otherwise the values matching
the condition, in data order. -/
def CacheManager.Query {T : Type} (cm : CacheManager T) (now : Int)
    (condition : QueryCondition T) : List T :=
  if cm.isExpired now then []
  else (cm.data.map Prod.snd).filter fun item => condition.Match item

/-- Go `RelatedCacheManager` state from `cache/cache_manager.go`. -/
structure RelatedCacheManager (T : Type) where
  data : List (Key × T)
  fkIndex : List (Key × List Key)
  ttl : Int
  lastFetch : Option Int

/-- Go `NewRelatedCacheManager`: empty data and index, explicit TTL,
unset `lastFetch`. -/
def NewRelatedCacheManager (T : Type) (ttl : Int) : RelatedCacheManager T :=
  { data := [], fkIndex := [], ttl := ttl, lastFetch := none }

/-- Go `RelatedCacheManager.isExpired`:
`!rcm.lastFetch.IsZero() && time.Since(rcm.lastFetch) > rcm.ttl`
(note: no `ttl > 0` guard, unlike the primary store). -/
def RelatedCacheManager.isExpired {T : Type} (rcm : RelatedCacheManager T) (now : Int) : Bool :=
  match rcm.lastFetch with
  | none => false
  | some t0 => decide (rcm.ttl < now - t0)

/-- Go `RelatedCacheManager.Get`: `(zero, false)` when expired or absent,
modelled as `Option`. -/
def RelatedCacheManager.Get {T : Type} (rcm : RelatedCacheManager T) (now : Int)
    (id : Key) : Option T :=
  if rcm.isExpired now then none else mapLookup rcm.data id

/-- Go read `pks := rcm.fkIndex[fkID]`: the bucket, or nil when absent. -/
def fkLookup : List (Key × List Key) → Key → List Key
  | [], _ => []
  | (k, pks) :: rest, fk => if k = fk then pks else fkLookup rest fk

/-- Go `RelatedCacheManager.GetByForeignKey`: nil if expired; otherwise each
primary key of the bucket that still exists in `data`, in bucket order. -/
def RelatedCacheManager.GetByForeignKey {T : Type} (rcm : RelatedCacheManager T)
    (now : Int) (fkID : Key) : List T :=
  if rcm.isExpired now then []
  else (fkLookup rcm.fkIndex fkID).filterMap fun pk => mapLookup rcm.data pk

/-- Go `RelatedCacheManager.GetAll`: nil if expired, otherwise all map values. -/
def RelatedCacheManager.GetAll {T : Type} (rcm : RelatedCacheManager T) (now : Int) : List T :=
  if rcm.isExpired now then [] else rcm.data.map Prod.snd

/-- Go `newFKIndex[fk] = append(newFKIndex[fk], pk)`: append the primary
key to the bucket of `fk`, creating the bucket if needed. -/
def fkAppend : List (Key × List Key) → Key → Key → List (Key × List Key)
  | [], fk, pk => [(fk, [pk])]
  | (k, pks) :: rest, fk, pk =>
      if k = fk then (k, pks ++ [pk]) :: rest else (k, pks) :: fkAppend rest fk pk

/-- The index half of the refresh loop
`for _, item := range items { newFKIndex[fk] = append(newFKIndex[fk], pk) }`
starting from an empty map (the `newData` and `newFKIndex` updates of the
single Go loop are independent, so they are folded separately). -/
def buildFKIndex {T : Type} [ForeignKeyable T] (items : List T) : List (Key × List Key) :=
  items.foldl (fun m item => fkAppend m (GetUserID item) (GetID item)) []

/-- Go `RelatedCacheManager.Refresh`: on loader error return it and leave the
state untouched; on success rebuild `data` and `fkIndex` from scratch and
set `lastFetch`. -/
def RelatedCacheManager.Refresh {T E : Type} [ForeignKeyable T]
    (rcm : RelatedCacheManager T) (loadResult : Except E (List T)) (now : Int) :
    RelatedCacheManager T × Option E :=
  match loadResult with
  | .error e => (rcm, some e)
  | .ok items =>
      ({ rcm with data := buildData items, fkIndex := buildFKIndex items,
                  lastFetch := some now }, none)

/-- Go `RelatedCacheManager.Clear`: empty both maps; `ttl` and `lastFetch`
keep their values. -/
def RelatedCacheManager.Clear {T : Type} (rcm : RelatedCacheManager T) :
    RelatedCacheManager T :=
  { rcm with data := [], fkIndex := [] }

/-- Go `RelatedCacheManager.Query`: nil if expired, otherwise the values
matching the condition. -/
def RelatedCacheManager.Query {T : Type} (rcm : RelatedCacheManager T) (now : Int)
    (condition : QueryCondition T) : List T :=
  if rcm.isExpired now then []
  else (rcm.data.map Prod.snd).filter fun item => condition.Match item

/-- All primary keys recorded across all buckets of a foreign-key index,
bucket by bucket. -/
def allIndexedKeys (m : List (Key × List Key)) : List Key :=
  (m.map Prod.snd).flatten

/-- Referential integrity of the related store: every primary key
occurring in any `fkIndex` bucket has a binding in `data` (so the
existence check in `GetByForeignKey` never drops a key). -/
def fkRefIntegrity {T : Type} (rcm : RelatedCacheManager T) : Prop :=
  ∀ p ∈ rcm.fkIndex, ∀ pk ∈ p.2, (mapLookup rcm.data pk).isSome = true

/-- Go `models.User` (the fields the cache engine sees). -/
structure User where
  ID : Nat
  Name : String
  Email : String
deriving Repr, DecidableEq

instance : Identifiable User := ⟨User.ID⟩

/-- Go `models.Order` (the fields the cache engine sees; `Amount` is kept as
an integer number of cents since no claim involves it). -/
structure OrderM where
  ID : Nat
  UserID : Nat
  Amount : Int
deriving Repr, DecidableEq

instance : ForeignKeyable OrderM := { GetID := OrderM.ID, GetUserID := OrderM.UserID }

/-! ### Lemmas on the composite-condition loops -/

lemma matchAll_eq_all {T : Type} (item : T) (l : List (QueryCondition T)) :
    matchAll item l = l.all fun cond => cond.Match item := by
  induction l with
  | nil => rfl
  | cons c rest ih => by_cases h : c.Match item <;> simp [matchAll, h, ih]

lemma matchAny_eq_any {T : Type} (item : T) (l : List (QueryCondition T)) :
    matchAny item l = l.any fun cond => cond.Match item := by
  induction l with
  | nil => rfl
  | cons c rest ih => by_cases h : c.Match item <;> simp [matchAny, h, ih]

/-! ### Claim C1 -/

/-- Claim C1, counterexample: a `CompositeCondition` with an empty
sequence of sub-conditions and operation `"or"` *does* match an entity
(the empty-sequence early return fires before the operation is
inspected), refuting the claim that an empty `"or"` composite does not
match. -/
theorem C1_counterexample :
    (CompositeCondition.mk ([] : List (QueryCondition User)) "or").Match
      (User.mk 1 "John" "john@example.com") = true := rfl

/-- Claim C1 (amended): for every entity, a `CompositeCondition` with an
empty sequence of sub-conditions matches the entity whatever its
operation (also for `"or"`); for a non-empty sequence, `"and"` returns
true iff every sub-condition matches and `"or"` returns true iff some
sub-condition matches. -/
theorem C1_composite_match {T : Type} (c : CompositeCondition T) (item : T) :
    (c.Conditions = [] → c.Match item = true)
    ∧ (c.Conditions ≠ [] → c.Operation = "and" →
        (c.Match item = true ↔ ∀ sub ∈ c.Conditions, sub.Match item = true))
    ∧ (c.Conditions ≠ [] → c.Operation = "or" →
        (c.Match item = true ↔ ∃ sub ∈ c.Conditions, sub.Match item = true)) := by
  refine ⟨fun h => ?_, fun hne hop => ?_, fun hne hop => ?_⟩
  · simp [CompositeCondition.Match, h]
  · have hlen : c.Conditions.length ≠ 0 := by simpa using hne
    simp [CompositeCondition.Match, hlen, hop, matchAll_eq_all, List.all_eq_true]
  · have hlen : c.Conditions.length ≠ 0 := by simpa using hne
    simp [CompositeCondition.Match, hlen, hop, matchAny_eq_any, List.any_eq_true]

/-- Claim C1, witness: the amended theorem applied to a concrete
non-empty `"and"` composite over `Nat`. -/
theorem C1_composite_match_witness :
    (CompositeCondition.mk [QueryCondition.mk (fun n : Nat => n == 3)] "and").Match 3
      = true :=
  ((C1_composite_match
      (CompositeCondition.mk [QueryCondition.mk (fun n : Nat => n == 3)] "and")
      3).2.1 (by simp) rfl).mpr (by simp)

/-! ### Claim C2 -/

/-- Claim C2: on the primary store with `ttl = d > 0` and `lastFetch` set
to `t0` by a successful `Refresh`, every access strictly later than
`t0 + d` takes the expired branch (`Get` fails, `GetAll`/`Query` are
empty), and every access in `[t0, t0 + d)` is fresh (not expired, reads
consult the current data). -/
theorem C2_ttl_expiry {T : Type} [Identifiable T] (cm : CacheManager T)
    (S : List T) (d t0 : Int) (hd : 0 < d) (httl : cm.ttl = d)
    (cm' : CacheManager T)
    (href : cm' = (cm.Refresh (Except.ok S : Except String (List T)) t0).1)
    (now : Int) :
    (t0 + d < now →
        (∀ id, cm'.Get now id = Except.error CacheError.cacheExpired)
        ∧ cm'.GetAll now = []
        ∧ (∀ cond, cm'.Query now cond = []))
    ∧ (t0 ≤ now → now < t0 + d →
        cm'.isExpired now = false
        ∧ cm'.GetAll now = cm'.data.map Prod.snd
        ∧ (∀ cond, cm'.Query now cond
            = (cm'.data.map Prod.snd).filter fun x => cond.Match x)
        ∧ (∀ id, cm'.Get now id
            = match mapLookup cm'.data id with
              | some item => Except.ok item
              | none => Except.error (CacheError.itemNotFound id))) := by
  have httl' : cm'.ttl = d := by simp [href, CacheManager.Refresh, httl]
  have hlf : cm'.lastFetch = some t0 := by simp [href, CacheManager.Refresh]
  constructor
  · intro hlt
    have hexp : cm'.isExpired now = true := by
      simp only [CacheManager.isExpired, httl', hlf]
      simp only [Bool.and_eq_true, decide_eq_true_eq]
      omega
    refine ⟨fun id => ?_, ?_, fun cond => ?_⟩ <;>
      simp [CacheManager.Get, CacheManager.GetAll, CacheManager.Query, hexp]
  · intro h1 h2
    have hexp : cm'.isExpired now = false := by
      simp only [CacheManager.isExpired, httl', hlf]
      simp only [Bool.and_eq_false_iff, decide_eq_false_iff_not]
      right; omega
    refine ⟨hexp, by simp [CacheManager.GetAll, hexp],
      fun cond => by simp [CacheManager.Query, hexp], fun id => ?_⟩
    cases h : mapLookup cm'.data id <;> simp [CacheManager.Get, hexp, h]

/-- Claim C2, witness: a store refreshed at time 0 with `ttl = 5` reports
`cache expired` from `Get` at time 10. -/
theorem C2_ttl_expiry_witness :
    ((((NewCacheManager User).WithTTL 5).Refresh
        (Except.ok [User.mk 1 "John" "john@example.com"] : Except String (List User))
        0).1).Get 10 1 = Except.error CacheError.cacheExpired :=
  ((C2_ttl_expiry ((NewCacheManager User).WithTTL 5)
      [User.mk 1 "John" "john@example.com"] 5 0 (by decide) rfl _ rfl 10).1
      (by decide)).1 1

/-! ### Claim C8 -/

/-- Claim C8: on the primary store, in every state with `ttl = 0` the
store is never expired, whatever `lastFetch` holds, and `Get`/`GetAll`/
`Query` consult the current data rather than taking the expired branch. -/
theorem C8_zero_ttl_never_expires {T : Type} (cm : CacheManager T)
    (httl : cm.ttl = 0) (now : Int) :
    cm.isExpired now = false
    ∧ cm.GetAll now = cm.data.map Prod.snd
    ∧ (∀ cond, cm.Query now cond = (cm.data.map Prod.snd).filter fun x => cond.Match x)
    ∧ (∀ id, cm.Get now id
        = match mapLookup cm.data id with
          | some item => Except.ok item
          | none => Except.error (CacheError.itemNotFound id)) := by
  have hexp : cm.isExpired now = false := by
    simp [CacheManager.isExpired, httl]
  refine ⟨hexp, by simp [CacheManager.GetAll, hexp],
    fun cond => by simp [CacheManager.Query, hexp], fun id => ?_⟩
  cases h : mapLookup cm.data id <;> simp [CacheManager.Get, hexp, h]

/-- Claim C8, witness: the freshly constructed primary store (which has
`ttl = 0`) is not expired at time 100. -/
theorem C8_zero_ttl_never_expires_witness :
    (NewCacheManager User).isExpired 100 = false :=
  (C8_zero_ttl_never_expires (NewCacheManager User) rfl 100).1

/-! ### Claim C9 -/

/-- Claim C9: `Clear` on the primary store empties `data` while leaving
`lastFetch` and `ttl` unchanged; under `ttl = 0` a read after `Clear` is
not expired but returns empty results (`NotFound` from `Get`). -/
theorem C9_clear_frame {T : Type} (cm : CacheManager T) :
    cm.Clear.data = []
    ∧ cm.Clear.lastFetch = cm.lastFetch
    ∧ cm.Clear.ttl = cm.ttl
    ∧ (cm.ttl = 0 → ∀ now : Int,
        cm.Clear.isExpired now = false
        ∧ cm.Clear.GetAll now = []
        ∧ (∀ cond, cm.Clear.Query now cond = [])
        ∧ (∀ id, cm.Clear.Get now id = Except.error (CacheError.itemNotFound id))) := by
  refine ⟨rfl, rfl, rfl, fun httl now => ?_⟩
  have hexp : cm.Clear.isExpired now = false := by
    simp [CacheManager.Clear, CacheManager.isExpired, httl]
  exact ⟨hexp, by simp [CacheManager.GetAll, CacheManager.Clear, hexp],
    fun cond => by simp [CacheManager.Query, CacheManager.Clear, hexp],
    fun id => by
      simp [CacheManager.Get, CacheManager.Clear, CacheManager.isExpired, httl,
        mapLookup]⟩

/-- Claim C9, witness: clearing a populated zero-TTL store makes `Get`
report `NotFound` for id 7 at time 3. -/
theorem C9_clear_frame_witness :
    (CacheManager.mk [(7, User.mk 7 "Jane" "jane@example.com")] 0 (some 1) :
        CacheManager User).Clear.Get 3 7
      = Except.error (CacheError.itemNotFound 7) :=
  (((C9_clear_frame
      (CacheManager.mk [(7, User.mk 7 "Jane" "jane@example.com")] 0 (some 1))).2.2.2
      rfl 3).2.2.2) 7

/-! ### Claim C4 -/

/-- Claim C4: for both stores, when the loader fails, `Refresh` returns
that error and the whole state (in particular `data`, `fkIndex` and
`lastFetch`) is exactly what it was before the call, so a subsequent
`GetAll` still returns the previously cached entities unchanged. -/
theorem C4_refresh_failure {T U E : Type} [Identifiable T] [ForeignKeyable U]
    (cm : CacheManager T) (rcm : RelatedCacheManager U) (e : E) (t now : Int) :
    cm.Refresh (Except.error e : Except E (List T)) t = (cm, some e)
    ∧ rcm.Refresh (Except.error e : Except E (List U)) t = (rcm, some e)
    ∧ ((cm.Refresh (Except.error e : Except E (List T)) t).1).GetAll now = cm.GetAll now
    ∧ ((rcm.Refresh (Except.error e : Except E (List U)) t).1).GetAll now
        = rcm.GetAll now :=
  ⟨rfl, rfl, rfl, rfl⟩

/-! ### Claim C5 -/

/-- Claim C5: on the related store, any state with an unset `lastFetch`
is not expired, for every TTL value (including zero); in particular the
freshly constructed store reports not-found from `Get` and empty
sequences from `GetAll`/`Query`/`GetByForeignKey`, rather than
permanently reporting "expired". -/
theorem C5_unset_lastFetch {T : Type} (ttl now : Int) (id fk : Key)
    (cond : QueryCondition T) :
    (∀ rcm : RelatedCacheManager T, rcm.lastFetch = none → rcm.isExpired now = false)
    ∧ (NewRelatedCacheManager T ttl).isExpired now = false
    ∧ (NewRelatedCacheManager T ttl).Get now id = none
    ∧ (NewRelatedCacheManager T ttl).GetAll now = []
    ∧ (NewRelatedCacheManager T ttl).Query now cond = []
    ∧ (NewRelatedCacheManager T ttl).GetByForeignKey now fk = [] := by
  refine ⟨fun rcm h => by simp [RelatedCacheManager.isExpired, h], rfl, ?_, rfl, rfl, ?_⟩
  · simp [RelatedCacheManager.Get, NewRelatedCacheManager,
      RelatedCacheManager.isExpired, mapLookup]
  · simp [RelatedCacheManager.GetByForeignKey, NewRelatedCacheManager,
      RelatedCacheManager.isExpired, fkLookup]

/-- Claim C5, witness: a related store with zero TTL and unset
`lastFetch` is not expired at time 5, and the freshly constructed store
with zero TTL answers `Get 1` with not-found. -/
theorem C5_unset_lastFetch_witness :
    (RelatedCacheManager.mk ([] : List (Key × OrderM)) [] 0 none).isExpired 5 = false
    ∧ (NewRelatedCacheManager OrderM 0).Get 5 1 = none :=
  ⟨(C5_unset_lastFetch 0 5 1 2 (QueryCondition.mk fun _ : OrderM => true)).1
      (RelatedCacheManager.mk [] [] 0 none) rfl,
    (C5_unset_lastFetch 0 5 1 2 (QueryCondition.mk fun _ : OrderM => true)).2.2.1⟩

/-! ### Lemmas on the primary-key map -/

lemma mapLookup_mapUpsert {T : Type} (m : List (Key × T)) (k k' : Key) (v : T) :
    mapLookup (mapUpsert m k v) k' = if k = k' then some v else mapLookup m k' := by
  induction m with
  | nil => simp [mapUpsert, mapLookup]
  | cons p rest ih =>
      obtain ⟨k₀, v₀⟩ := p
      by_cases h0 : k₀ = k
      · subst h0
        by_cases h : k₀ = k' <;> simp [mapUpsert, mapLookup, h]
      · by_cases h : k₀ = k'
        · subst h
          have hk : ¬k = k₀ := fun he => h0 he.symm
          simp [mapUpsert, mapLookup, h0, hk]
        · simp [mapUpsert, mapLookup, h0, h, ih]

lemma mapUpsert_of_not_mem {T : Type} (m : List (Key × T)) (k : Key) (v : T)
    (h : k ∉ m.map Prod.fst) : mapUpsert m k v = m ++ [(k, v)] := by
  induction m with
  | nil => rfl
  | cons p rest ih =>
      obtain ⟨k₀, v₀⟩ := p
      simp only [List.map_cons, List.mem_cons] at h
      push_neg at h
      have h0 : ¬k₀ = k := fun he => h.1 he.symm
      simp [mapUpsert, h0, ih h.2]

lemma foldl_mapUpsert_append {T : Type} [Identifiable T] (S : List T) :
    ∀ m : List (Key × T),
      ((S.map fun x => GetID x) ++ m.map Prod.fst).Nodup →
      S.foldl (fun acc item => mapUpsert acc (GetID item) item) m
        = m ++ S.map fun x => (GetID x, x) := by
  induction S with
  | nil => intro m _; simp
  | cons x xs ih =>
      intro m hnd
      simp only [List.map_cons, List.cons_append, List.nodup_cons] at hnd
      have hx : GetID x ∉ m.map Prod.fst :=
        fun hmem => hnd.1 (List.mem_append_right _ hmem)
      rw [List.foldl_cons, mapUpsert_of_not_mem m (GetID x) x hx]
      have hnd' : ((xs.map fun y => GetID y) ++ (m ++ [(GetID x, x)]).map Prod.fst).Nodup := by
      -- permute (GetID x) from the head to the very end
        have hperm :
            List.Perm ((GetID x) :: ((xs.map fun y => GetID y) ++ m.map Prod.fst))
              ((xs.map fun y => GetID y) ++ (m.map Prod.fst ++ [GetID x])) := by
          rw [← List.append_assoc]
          exact (List.perm_append_singleton _ _).symm
        have : ((xs.map fun y => GetID y) ++ (m.map Prod.fst ++ [GetID x])).Nodup :=
          hperm.nodup_iff.mp (List.nodup_cons.mpr hnd)
        simpa using this
      rw [ih (m ++ [(GetID x, x)]) hnd']
      simp

lemma buildData_of_nodup {T : Type} [Identifiable T] (S : List T)
    (h : (S.map fun x => GetID x).Nodup) :
    buildData S = S.map fun x => (GetID x, x) := by
  have := foldl_mapUpsert_append S [] (by simpa using h)
  simpa [buildData] using this

lemma mapLookup_map_pair {T : Type} [Identifiable T] (S : List T) (x : T)
    (hnd : (S.map fun y => GetID y).Nodup) (hx : x ∈ S) :
    mapLookup (S.map fun y => (GetID y, y)) (GetID x) = some x := by
  induction S with
  | nil => cases hx
  | cons y ys ih =>
      simp only [List.map_cons, List.nodup_cons] at hnd
      rcases List.mem_cons.mp hx with h | h
      · subst h; simp [mapLookup]
      · have hne : ¬GetID y = GetID x := by
          intro he
          exact hnd.1 (by rw [he]; exact List.mem_map_of_mem _ h)
        simp [mapLookup, hne, ih hnd.2 h]

/-! ### Claim C3 -/

/-- Claim C3: for a loader returning a fixed sequence `S` of entities
with pairwise-distinct primary keys, after a successful `Refresh` on a
non-expired primary store, `GetAll` returns exactly the entities of `S`
(here even in the same order, hence also as an order-independent
permutation), and `Get id` succeeds with the corresponding entity for
every id of an entity of `S`. -/
theorem C3_read_after_refresh {T : Type} [Identifiable T] (cm : CacheManager T)
    (S : List T) (t0 now : Int)
    (hnd : (S.map fun x => GetID x).Nodup)
    (cm' : CacheManager T)
    (href : cm' = (cm.Refresh (Except.ok S : Except String (List T)) t0).1)
    (hfresh : cm'.isExpired now = false) :
    cm'.GetAll now = S
    ∧ List.Perm (cm'.GetAll now) S
    ∧ (∀ x ∈ S, cm'.Get now (GetID x) = Except.ok x) := by
  have hdata : cm'.data = S.map fun x => (GetID x, x) := by
    simp [href, CacheManager.Refresh, buildData_of_nodup S hnd]
  have hall : cm'.GetAll now = S := by
    simp [CacheManager.GetAll, hfresh, hdata, Function.comp_def]
  refine ⟨hall, hall ▸ List.Perm.refl S, fun x hx => ?_⟩
  simp [CacheManager.Get, hfresh, hdata, mapLookup_map_pair S x hnd hx]

/-- Claim C3, witness: refreshing a permanent (zero-TTL) store with two
distinct users makes `GetAll` return exactly those users. -/
theorem C3_read_after_refresh_witness :
    (((NewCacheManager User).Refresh
        (Except.ok [User.mk 1 "John" "john@example.com",
                    User.mk 2 "Jane" "jane@example.com"] : Except String (List User))
        0).1).GetAll 0
      = [User.mk 1 "John" "john@example.com", User.mk 2 "Jane" "jane@example.com"] :=
  (C3_read_after_refresh (NewCacheManager User)
      [User.mk 1 "John" "john@example.com", User.mk 2 "Jane" "jane@example.com"]
      0 0 (by decide) _ rfl rfl).1

/-! ### Lemmas on the foreign-key index -/

lemma fkLookup_fkAppend (m : List (Key × List Key)) (fk pk f : Key) :
    fkLookup (fkAppend m fk pk) f
      = if fk = f then fkLookup m f ++ [pk] else fkLookup m f := by
  induction m with
  | nil => by_cases h : fk = f <;> simp [fkAppend, fkLookup, h]
  | cons p rest ih =>
      obtain ⟨k, pks⟩ := p
      by_cases hk : k = fk
      · subst hk
        by_cases h : k = f <;> simp [fkAppend, fkLookup, h]
      · by_cases h : k = f
        · subst h
          have hf : ¬fk = k := fun he => hk he.symm
          simp [fkAppend, fkLookup, hk, hf]
        · simp [fkAppend, fkLookup, hk, h, ih]

lemma fkLookup_foldl_fkAppend {T : Type} [ForeignKeyable T] (S : List T) :
    ∀ (m : List (Key × List Key)) (f : Key),
      fkLookup (S.foldl (fun m item => fkAppend m (GetUserID item) (GetID item)) m) f
        = fkLookup m f ++ (S.filter fun x => GetUserID x == f).map fun x => GetID x := by
  induction S with
  | nil => intro m f; simp
  | cons x xs ih =>
      intro m f
      rw [List.foldl_cons, ih]
      by_cases h : GetUserID x = f
      · simp [List.filter_cons, h, fkLookup_fkAppend, List.append_assoc]
      · simp [List.filter_cons, h, fkLookup_fkAppend]

lemma fkLookup_buildFKIndex {T : Type} [ForeignKeyable T] (S : List T) (f : Key) :
    fkLookup (buildFKIndex S) f
      = (S.filter fun x => GetUserID x == f).map fun x => GetID x := by
  have := fkLookup_foldl_fkAppend S [] f
  simpa [buildFKIndex, fkLookup] using this

lemma filterMap_eq_self_of_some {T : Type} (l : List T) (g : T → Option T)
    (h : ∀ x ∈ l, g x = some x) : l.filterMap g = l := by
  induction l with
  | nil => rfl
  | cons x xs ih =>
      simp [List.filterMap_cons, h x (List.mem_cons_self x xs),
        ih fun y hy => h y (List.mem_cons_of_mem x hy)]

/-! ### Claim C6 -/

/-- Claim C6: on a non-expired related store whose last successful
`Refresh` loaded a snapshot `S` with pairwise-distinct primary keys,
`GetByForeignKey f` returns exactly the entities of `S` whose foreign
key is `f`, in the order their primary keys were recorded in the index
(snapshot order); consequently every entity appears under its own
foreign key and under no other; `GetByForeignKey` is empty when the
bucket is empty/absent and on any expired store. -/
theorem C6_fk_index {T : Type} [ForeignKeyable T] (rcm : RelatedCacheManager T)
    (S : List T) (t0 now : Int)
    (hnd : (S.map fun x => GetID x).Nodup)
    (rcm' : RelatedCacheManager T)
    (href : rcm' = (rcm.Refresh (Except.ok S : Except String (List T)) t0).1)
    (hfresh : rcm'.isExpired now = false) :
    (∀ f, fkLookup rcm'.fkIndex f
        = (S.filter fun x => GetUserID x == f).map fun x => GetID x)
    ∧ (∀ f, rcm'.GetByForeignKey now f = S.filter fun x => GetUserID x == f)
    ∧ (∀ x ∈ S, x ∈ rcm'.GetByForeignKey now (GetUserID x))
    ∧ (∀ x ∈ S, ∀ f, f ≠ GetUserID x → x ∉ rcm'.GetByForeignKey now f)
    ∧ (∀ f, fkLookup rcm'.fkIndex f = [] → rcm'.GetByForeignKey now f = [])
    ∧ (∀ (r : RelatedCacheManager T) (n : Int) (f : Key),
        r.isExpired n = true → r.GetByForeignKey n f = []) := by
  have hdata : rcm'.data = S.map fun x => (GetID x, x) := by
    simp [href, RelatedCacheManager.Refresh, buildData_of_nodup S hnd]
  have hidx : rcm'.fkIndex = buildFKIndex S := by
    simp [href, RelatedCacheManager.Refresh]
  have hbucket : ∀ f, fkLookup rcm'.fkIndex f
      = (S.filter fun x => GetUserID x == f).map fun x => GetID x := by
    intro f; rw [hidx, fkLookup_buildFKIndex]
  have hmain : ∀ f, rcm'.GetByForeignKey now f = S.filter fun x => GetUserID x == f := by
    intro f
    rw [RelatedCacheManager.GetByForeignKey, if_neg (by simp [hfresh]), hbucket f,
      hdata, List.filterMap_map]
    apply filterMap_eq_self_of_some
    intro x hx
    exact mapLookup_map_pair S x hnd (List.mem_of_mem_filter hx)
  refine ⟨hbucket, hmain, fun x hx => ?_, fun x hx f hf hmem => ?_, fun f hf => ?_,
    fun r n f hexp => ?_⟩
  · rw [hmain]
    exact List.mem_filter.mpr ⟨hx, by simp⟩
  · rw [hmain] at hmem
    exact hf (beq_iff_eq.mp (List.mem_filter.mp hmem).2).symm
  · rw [RelatedCacheManager.GetByForeignKey, if_neg (by simp [hfresh]), hf]
    rfl
  · rw [RelatedCacheManager.GetByForeignKey, if_pos (by simp [hexp])]

/-- Claim C6, witness: the scenario snapshot loaded into a related store
with TTL 10 at time 0, read at time 5 — foreign key 10 resolves to the
two entities carrying it, in snapshot order. -/
theorem C6_fk_index_witness :
    (((NewRelatedCacheManager OrderM 10).Refresh
        (Except.ok [OrderM.mk 1 10 100, OrderM.mk 2 10 200, OrderM.mk 3 20 300]
          : Except String (List OrderM)) 0).1).GetByForeignKey 5 10
      = [OrderM.mk 1 10 100, OrderM.mk 2 10 200] := by
  have h := (C6_fk_index (NewRelatedCacheManager OrderM 10)
      [OrderM.mk 1 10 100, OrderM.mk 2 10 200, OrderM.mk 3 20 300]
      0 5 (by decide) _ rfl rfl).2.1 10
  exact h.trans (by decide)

/-! ### Lemmas on the multiset of indexed primary keys -/

lemma allIndexedKeys_fkAppend (m : List (Key × List Key)) (fk pk : Key) :
    List.Perm (allIndexedKeys (fkAppend m fk pk)) (pk :: allIndexedKeys m) := by
  induction m with
  | nil => simp [fkAppend, allIndexedKeys]
  | cons p rest ih =>
      obtain ⟨k, pks⟩ := p
      by_cases h : k = fk
      · subst h
        simp only [fkAppend, eq_self_iff_true, if_true, allIndexedKeys, List.map_cons,
          List.flatten_cons, List.append_assoc, List.singleton_append]
        exact List.perm_middle
      · simp only [fkAppend, if_neg h, allIndexedKeys, List.map_cons, List.flatten_cons]
        exact (List.Perm.append_left pks ih).trans List.perm_middle

lemma allIndexedKeys_foldl_fkAppend {T : Type} [ForeignKeyable T] (S : List T) :
    ∀ m : List (Key × List Key),
      List.Perm
        (allIndexedKeys (S.foldl (fun m item => fkAppend m (GetUserID item) (GetID item)) m))
        ((S.map fun x => GetID x) ++ allIndexedKeys m) := by
  induction S with
  | nil => intro m; simp
  | cons x xs ih =>
      intro m
      rw [List.foldl_cons]
      refine (ih (fkAppend m (GetUserID x) (GetID x))).trans ?_
      refine (List.Perm.append_left _ (allIndexedKeys_fkAppend m _ _)).trans ?_
      simp only [List.map_cons, List.cons_append]
      exact List.perm_middle

lemma allIndexedKeys_buildFKIndex {T : Type} [ForeignKeyable T] (S : List T) :
    List.Perm (allIndexedKeys (buildFKIndex S)) (S.map fun x => GetID x) := by
  have := allIndexedKeys_foldl_fkAppend S []
  simpa [buildFKIndex, allIndexedKeys] using this

/-! ### Claim C7 -/

/-- Claim C7, counterexample: a loader snapshot with a duplicated primary
key (id 1 appears with foreign keys 10 and 20) makes `Refresh` record
primary key 1 under two different buckets of `fkIndex`, refuting the
claim that for every loader snapshot each primary key appears under
exactly one bucket and never twice across buckets. -/
theorem C7_counterexample :
    1 ∈ fkLookup (((NewRelatedCacheManager OrderM 0).Refresh
        (Except.ok [OrderM.mk 1 10 0, OrderM.mk 1 20 0] : Except String (List OrderM))
        0).1).fkIndex 10
    ∧ 1 ∈ fkLookup (((NewRelatedCacheManager OrderM 0).Refresh
        (Except.ok [OrderM.mk 1 10 0, OrderM.mk 1 20 0] : Except String (List OrderM))
        0).1).fkIndex 20
    ∧ ¬(allIndexedKeys (((NewRelatedCacheManager OrderM 0).Refresh
        (Except.ok [OrderM.mk 1 10 0, OrderM.mk 1 20 0] : Except String (List OrderM))
        0).1).fkIndex).Nodup := by decide

/-- Claim C7 (amended): after a `Refresh` of the related store whose
loaded snapshot has pairwise-distinct primary keys, each primary key
appears under exactly the bucket of its entity's foreign key, under no
other bucket, and no primary key occurs more than once across all
buckets; every indexed key comes from a snapshot entity. -/
theorem C7_fk_buckets {T : Type} [ForeignKeyable T] (rcm : RelatedCacheManager T)
    (S : List T) (t0 : Int)
    (hnd : (S.map fun x => GetID x).Nodup)
    (rcm' : RelatedCacheManager T)
    (href : rcm' = (rcm.Refresh (Except.ok S : Except String (List T)) t0).1) :
    (allIndexedKeys rcm'.fkIndex).Nodup
    ∧ (∀ x ∈ S, GetID x ∈ fkLookup rcm'.fkIndex (GetUserID x))
    ∧ (∀ x ∈ S, ∀ f, f ≠ GetUserID x → GetID x ∉ fkLookup rcm'.fkIndex f)
    ∧ (∀ f pk, pk ∈ fkLookup rcm'.fkIndex f →
        ∃ x ∈ S, GetID x = pk ∧ GetUserID x = f) := by
  have hidx : rcm'.fkIndex = buildFKIndex S := by
    simp [href, RelatedCacheManager.Refresh]
  have hbucket : ∀ f, fkLookup rcm'.fkIndex f
      = (S.filter fun x => GetUserID x == f).map fun x => GetID x := by
    intro f; rw [hidx, fkLookup_buildFKIndex]
  refine ⟨?_, fun x hx => ?_, fun x hx f hf hmem => ?_, fun f pk hpk => ?_⟩
  · rw [hidx]
    exact (allIndexedKeys_buildFKIndex S).nodup_iff.mpr hnd
  · rw [hbucket]
    exact List.mem_map_of_mem _ (List.mem_filter.mpr ⟨hx, by simp⟩)
  · rw [hbucket] at hmem
    obtain ⟨y, hy, hid⟩ := List.mem_map.mp hmem
    obtain ⟨hyS, hyf⟩ := List.mem_filter.mp hy
    have hxy : y = x := List.inj_on_of_nodup_map hnd hyS hx hid
    exact hf (beq_iff_eq.mp (hxy ▸ hyf)).symm
  · rw [hbucket] at hpk
    obtain ⟨y, hy, hid⟩ := List.mem_map.mp hpk
    obtain ⟨hyS, hyf⟩ := List.mem_filter.mp hy
    exact ⟨y, hyS, hid, beq_iff_eq.mp hyf⟩

/-- Claim C7, witness: the amended theorem applied to the scenario
snapshot — the keys indexed by the refreshed store are pairwise
distinct. -/
theorem C7_fk_buckets_witness :
    (allIndexedKeys (((NewRelatedCacheManager OrderM 10).Refresh
        (Except.ok [OrderM.mk 1 10 100, OrderM.mk 2 10 200, OrderM.mk 3 20 300]
          : Except String (List OrderM)) 0).1).fkIndex).Nodup :=
  (C7_fk_buckets (NewRelatedCacheManager OrderM 10)
      [OrderM.mk 1 10 100, OrderM.mk 2 10 200, OrderM.mk 3 20 300]
      0 (by decide) _ rfl).1

/-! ### Lemmas for referential integrity -/

lemma mapLookup_foldl_isSome {T : Type} [Identifiable T] (S : List T) :
    ∀ (m : List (Key × T)) (k : Key),
      ((mapLookup m k).isSome = true ∨ ∃ x ∈ S, GetID x = k) →
      (mapLookup (S.foldl (fun m item => mapUpsert m (GetID item) item) m) k).isSome
        = true := by
  induction S with
  | nil =>
      intro m k h
      rcases h with h | ⟨x, hx, _⟩
      · simpa using h
      · cases hx
  | cons x xs ih =>
      intro m k h
      rw [List.foldl_cons]
      apply ih
      by_cases hk : GetID x = k
      · left; simp [mapLookup_mapUpsert, hk]
      · rcases h with h | ⟨y, hy, hid⟩
        · left; simp [mapLookup_mapUpsert, hk, h]
        · rcases List.mem_cons.mp hy with rfl | hy'
          · exact absurd hid hk
          · exact Or.inr ⟨y, hy', hid⟩

lemma mapLookup_buildData_isSome {T : Type} [Identifiable T] (S : List T) (k : Key)
    (h : ∃ x ∈ S, GetID x = k) : (mapLookup (buildData S) k).isSome = true :=
  mapLookup_foldl_isSome S [] k (Or.inr h)

lemma fkAppend_bucket_mem (m : List (Key × List Key)) (fk pk : Key) :
    ∀ p ∈ fkAppend m fk pk, ∀ q ∈ p.2, (∃ r ∈ m, q ∈ r.2) ∨ q = pk := by
  induction m with
  | nil =>
      intro p hp q hq
      simp only [fkAppend, List.mem_singleton] at hp
      subst hp
      simp only [List.mem_singleton] at hq
      exact Or.inr hq
  | cons r rest ih =>
      obtain ⟨k, pks⟩ := r
      intro p hp q hq
      by_cases h : k = fk
      · subst h
        simp only [fkAppend, eq_self_iff_true, if_true, List.mem_cons] at hp
        rcases hp with rfl | hp
        · simp only [List.mem_append, List.mem_singleton] at hq
          rcases hq with hq | hq
          · exact Or.inl ⟨(k, pks), List.mem_cons_self _ _, hq⟩
          · exact Or.inr hq
        · exact Or.inl ⟨p, List.mem_cons_of_mem _ hp, hq⟩
      · simp only [fkAppend, if_neg h, List.mem_cons] at hp
        rcases hp with rfl | hp
        · exact Or.inl ⟨(k, pks), List.mem_cons_self _ _, hq⟩
        · rcases ih p hp q hq with ⟨r', hr', hq'⟩ | hq'
          · exact Or.inl ⟨r', List.mem_cons_of_mem _ hr', hq'⟩
          · exact Or.inr hq'

lemma buildFKIndex_bucket_mem {T : Type} [ForeignKeyable T] (S : List T) :
    ∀ p ∈ buildFKIndex S, ∀ q ∈ p.2, ∃ x ∈ S, GetID x = q := by
  suffices h : ∀ m : List (Key × List Key),
      ∀ p ∈ S.foldl (fun m item => fkAppend m (GetUserID item) (GetID item)) m,
        ∀ q ∈ p.2, (∃ r ∈ m, q ∈ r.2) ∨ ∃ x ∈ S, GetID x = q by
    intro p hp q hq
    rcases h [] p hp q hq with ⟨r, hr, _⟩ | hx
    · exact absurd hr (List.not_mem_nil r)
    · exact hx
  induction S with
  | nil => intro m p hp q hq; exact Or.inl ⟨p, hp, hq⟩
  | cons x xs ih =>
      intro m p hp q hq
      rw [List.foldl_cons] at hp
      rcases ih (fkAppend m (GetUserID x) (GetID x)) p hp q hq with ⟨r, hr, hqr⟩ | hx
      · rcases fkAppend_bucket_mem m _ _ r hr q hqr with ⟨r', hr', hq'⟩ | hq'
        · exact Or.inl ⟨r', hr', hq'⟩
        · exact Or.inr ⟨x, List.mem_cons_self _ _, hq'.symm⟩
      · obtain ⟨y, hy, hid⟩ := hx
        exact Or.inr ⟨y, List.mem_cons_of_mem _ hy, hid⟩

lemma fkLookup_entry_mem (m : List (Key × List Key)) (f pk : Key)
    (h : pk ∈ fkLookup m f) : ∃ p ∈ m, pk ∈ p.2 := by
  induction m with
  | nil => exact absurd h (by simp [fkLookup])
  | cons r rest ih =>
      obtain ⟨k, pks⟩ := r
      by_cases hk : k = f
      · subst hk
        simp only [fkLookup, eq_self_iff_true, if_true] at h
        exact ⟨(k, pks), List.mem_cons_self _ _, h⟩
      · simp only [fkLookup, if_neg hk] at h
        obtain ⟨p, hp, hq⟩ := ih h
        exact ⟨p, List.mem_cons_of_mem _ hp, hq⟩

lemma filterMap_length_of_isSome {T U : Type} (l : List T) (g : T → Option U)
    (h : ∀ x ∈ l, (g x).isSome = true) : (l.filterMap g).length = l.length := by
  induction l with
  | nil => rfl
  | cons x xs ih =>
      obtain ⟨v, hv⟩ := Option.isSome_iff_exists.mp (h x (List.mem_cons_self _ _))
      simp [List.filterMap_cons, hv, ih fun y hy => h y (List.mem_cons_of_mem _ hy)]

/-! ### Claim C10 -/

/-- Claim C10: the related store maintains the referential-integrity
invariant that every primary key in any `fkIndex` bucket is a key of
`data` — after construction, after every successful `Refresh` (even
with duplicate primary keys in the snapshot), after a failed `Refresh`
that preserved an intact state, and after `Clear`; consequently the
existence check in `GetByForeignKey` never drops a key (the result has
one entity per indexed primary key of the bucket). -/
theorem C10_referential_integrity {T E : Type} [ForeignKeyable T]
    (ttl t0 now : Int) (rcm : RelatedCacheManager T) (S : List T) (e : E) :
    fkRefIntegrity (NewRelatedCacheManager T ttl)
    ∧ fkRefIntegrity ((rcm.Refresh (Except.ok S : Except E (List T)) t0).1)
    ∧ (fkRefIntegrity rcm →
        fkRefIntegrity ((rcm.Refresh (Except.error e : Except E (List T)) t0).1))
    ∧ fkRefIntegrity rcm.Clear
    ∧ (fkRefIntegrity rcm → rcm.isExpired now = false →
        ∀ f, (rcm.GetByForeignKey now f).length = (fkLookup rcm.fkIndex f).length) := by
  refine ⟨?_, ?_, fun h => h, ?_, fun hint hfresh f => ?_⟩
  · intro p hp
    exact absurd hp (List.not_mem_nil p)
  · intro p hp pk hpk
    simp only [RelatedCacheManager.Refresh] at hp ⊢
    exact mapLookup_buildData_isSome S pk (buildFKIndex_bucket_mem S p hp pk hpk)
  · intro p hp
    exact absurd hp (List.not_mem_nil p)
  · rw [RelatedCacheManager.GetByForeignKey, if_neg (by simp [hfresh])]
    apply filterMap_length_of_isSome
    intro pk hpk
    obtain ⟨p, hp, hq⟩ := fkLookup_entry_mem rcm.fkIndex f pk hpk
    exact hint p hp pk hq

/-- Claim C10, witness: on a concrete intact, non-expired related store
the bucket of foreign key 10 loses no key — `GetByForeignKey` returns as
many entities as the bucket has primary keys. -/
theorem C10_referential_integrity_witness :
    ((RelatedCacheManager.mk [(1, OrderM.mk 1 10 100)] [(10, [1])] 10
        (some 0)).GetByForeignKey 5 10).length = 1 := by
  have h := (C10_referential_integrity 0 0 5
      (RelatedCacheManager.mk [(1, OrderM.mk 1 10 100)] [(10, [1])] 10 (some 0))
      ([] : List OrderM) "loader failed").2.2.2.2
      (by unfold fkRefIntegrity; decide) rfl 10
  exact h.trans (by decide)

end Multicache
